import Mathlib

/-!
Shallow embedding of the `pullem` tool (src/main.go).

Strings are modelled as `List Char`.  The fragments of Go's `strings`
package used by the program (`TrimSpace`, `ToLower`, `HasPrefix`,
`Split` with a one-character separator, and — for comparison with the
spec's wording — `Fields`) are re-defined here with Go's semantics,
restricted to the ASCII whitespace characters that can occur in the
program's inputs.

The external world (git subprocesses, `os.Lstat`, the stream of answers
typed at the confirmation prompt) is passed in explicitly: each
subprocess result is a field of `RepoState`, each visited path's
filesystem data is a field of `VisitEnv`, and the interactive answers are
a list of strings consumed in order (an exhausted list models a read
error on standard input, which the program handles with `log.Fatal`).
The visitor's observable behaviour is returned explicitly: the walk
signal, the list of lines printed to standard output, and the list of
external commands invoked.  Output printed before a `log.Fatal` abort is
not tracked; an abort is modelled as `none`.
-/

namespace Pullem

abbrev Str := List Char

/-- ASCII fragment of Go's `unicode.IsSpace`. -/
def isSpaceChar (c : Char) : Bool :=
  c = ' ' || c = '\t' || c = '\n' || c = '\x0d' || c = '\x0b' || c = '\x0c'

/-- Go `strings.TrimSpace`: drop whitespace from both ends. -/
def trimSpace (s : Str) : Str :=
  ((s.dropWhile isSpaceChar).reverse.dropWhile isSpaceChar).reverse

/-- Go `strings.HasPrefix s p` is `strStarts p s`. -/
def strStarts : Str → Str → Bool
  | [], _ => true
  | _ :: _, [] => false
  | p :: ps, c :: cs => if p = c then strStarts ps cs else false

/-- Go `strings.ToLower`, ASCII fragment. -/
def toLowerStr (s : Str) : Str := s.map Char.toLower

/-- Go `strings.Split s sep` for a one-character separator `sep`:
splits at every occurrence, keeping empty pieces; the result is never
empty (`splitOnChar sep [] = [[]]`, as in Go). -/
def splitOnChar (sep : Char) : Str → List Str
  | [] => [[]]
  | c :: cs =>
    if c = sep then [] :: splitOnChar sep cs
    else
      match splitOnChar sep cs with
      | [] => [[c]]
      | t :: ts => (c :: t) :: ts

/-- Helper for `fieldsWS` (Go `strings.Fields`): `acc` is the current
field, reversed. -/
def fieldsWSAux : Str → Str → List Str
  | acc, [] => if acc = [] then [] else [acc.reverse]
  | acc, c :: cs =>
    if isSpaceChar c then
      if acc = [] then fieldsWSAux [] cs else acc.reverse :: fieldsWSAux [] cs
    else fieldsWSAux (c :: acc) cs

/-- Go `strings.Fields`: split around runs of whitespace, no empty
fields.  Used only to state the spec's "whitespace-separated fields"
wording, never by the embedded program itself. -/
def fieldsWS (s : Str) : List Str := fieldsWSAux [] s

/-- The literal `"refs/heads/"`. -/
def headsRef : Str := "refs/heads/".data

/-- The literal `"refs/heads/master"`. -/
def masterRef : Str := "refs/heads/master".data

/-! ## Filesystem model (`os.Lstat` and `pathExists`) -/

/-- What is on disk at a given path.  `symlink b` is a symbolic link
whose target exists iff `b` — `os.Lstat` does not follow the link, so it
succeeds either way.  `inaccessible e` is an entry for which `lstat`
fails with an error `e` that is not "does not exist". -/
inductive FsEntry
  | dir
  | file
  | symlink (targetExists : Bool)
  | absent
  | inaccessible (e : Str)

/-- Result of `os.Lstat`. -/
inductive LstatOutcome
  | found
  | notExist
  | otherError (e : Str)

def lstat : FsEntry → LstatOutcome
  | .dir => .found
  | .file => .found
  | .symlink _ => .found
  | .absent => .notExist
  | .inaccessible e => .otherError e

/-- `pathExists` from src/main.go: `Lstat` success means `true`,
`IsNotExist` means `false` with no error, anything else is an error. -/
def pathExists : LstatOutcome → Except Str Bool
  | .found => .ok true
  | .notExist => .ok false
  | .otherError e => .error e

/-- The entry is present and reachable on the path (the spec's
"path-accessible entry"): `lstat` of an `inaccessible` entry fails, so
the program cannot observe it as existing. -/
def pathAccessible : FsEntry → Bool
  | .dir => true
  | .file => true
  | .symlink _ => true
  | .absent => false
  | .inaccessible _ => false

/-! ## Git model -/

/-- The git-visible state of one repository, as the subprocess results
the program can observe.  Each `Except` is the command's trimmed-later
raw standard output, or an error when the command exits non-zero.
`defaultRef` is the repository's true default branch: the program never
queries it, the field exists only to state specifications. -/
structure RepoState where
  defaultRef : Str
  symShort : Except Str Str
  symFull : Except Str Str
  status : Except Str Str
  pullOk : Str → Bool
  refsOut : Except Str Str
  deleteOk : Str → Bool

/-- `defaultBranch` from src/main.go: `git symbolic-ref --short HEAD`,
output trimmed.  Note this is the *current* branch of the checkout. -/
def defaultBranch (st : RepoState) : Except Str Str :=
  st.symShort.map trimSpace

/-- `isOnDefault` from src/main.go: `git symbolic-ref --quiet HEAD`,
trimmed output compared with `"refs/heads/" + branch`. -/
def isOnDefault (st : RepoState) (branch : Str) : Except Str Bool :=
  st.symFull.map (fun raw => decide (trimSpace raw = headsRef ++ branch))

/-- `isClean` from src/main.go: `git status --porcelain`, clean iff the
trimmed output is empty. -/
def isClean (st : RepoState) : Except Str Bool :=
  st.status.map (fun raw => decide (trimSpace raw = []))

/-- `pull` from src/main.go: `git pull origin <branch> --ff-only`,
observed only through its exit status. -/
def pull (st : RepoState) (branch : Str) : Bool := st.pullOk branch

/-- The per-line body of the `localRefs` loop in src/main.go: trims the
line, skips empty lines, lines starting with `refs/heads/master` or
`refs/heads/<branch>`, lines splitting on a single space into exactly
two parts, and first fields not starting with `refs/heads/`; otherwise
yields the first field with `refs/heads/` stripped. -/
def localRefsLine (branch : Str) (line : Str) : Option Str :=
  let line := trimSpace line
  if line = [] then none
  else if strStarts masterRef line then none
  else if strStarts (headsRef ++ branch) line then none
  else
    let parts := splitOnChar ' ' line
    if parts.length = 2 then none
    else
      match parts with
      | [] => none
      | p :: _ => if strStarts headsRef p then some (p.drop headsRef.length) else none

/-- `localRefs` from src/main.go: `git for-each-ref --format
"%(refname) %(upstream)" refs/heads`, trimmed, split into lines, each
line processed by `localRefsLine`. -/
def localRefs (branch : Str) (output : Str) : List Str :=
  (splitOnChar '\n' (trimSpace output)).filterMap (localRefsLine branch)

/-! ## Interactive confirmation -/

/-- `askForConfirmation` from src/main.go: consume answers until one is
an accepted spelling; `y`/`yes` (case-insensitive, trimmed) is `true`,
`n`/`no` is `false`, anything else re-prompts.  An exhausted answer list
models a read error on standard input, on which the program calls
`log.Fatal`: result `none`. -/
def askForConfirmation : List Str → Option (Bool × List Str)
  | [] => none
  | r :: rest =>
    let resp := toLowerStr (trimSpace r)
    if resp = "y".data || resp = "yes".data then some (true, rest)
    else if resp = "n".data || resp = "no".data then some (false, rest)
    else askForConfirmation rest

/-! ## The visitor -/

/-- External commands the visitor can invoke, in invocation order. -/
inductive Action
  | lstatGit
  | symShortQ
  | symFullQ
  | statusQ
  | pullQ (branch : Str)
  | forEachRefQ
  | deleteQ (name : Str)
deriving DecidableEq

/-- The value `processDir` returns to `filepath.Walk`: `nil`
(continue), `filepath.SkipDir`, or a propagated walk error. -/
inductive WalkSig
  | cont
  | skipDir
  | werr (e : Str)
deriving DecidableEq

/-- `deleteBranch` from src/main.go: prompt, and on `yes` run
`git branch -D <localRef>`; on `no` return `nil` *without* running
anything.  Result: `nil`-or-error, commands invoked, remaining answers;
`none` models the `log.Fatal` inside `askForConfirmation`. -/
def deleteBranch (st : RepoState) (localRef : Str) (resp : List Str) :
    Option (Except Str Unit × List Action × List Str) :=
  match askForConfirmation resp with
  | none => none
  | some (false, rest) => some (.ok (), [], rest)
  | some (true, rest) =>
    if st.deleteOk localRef then some (.ok (), [.deleteQ localRef], rest)
    else some (.error "exit status 1".data, [.deleteQ localRef], rest)

/-- Report line: `"❌  %s failed processing %v"`. -/
def failedLine (rel msg : Str) : Str :=
  "❌  ".data ++ rel ++ " failed processing ".data ++ msg

/-- Report line: `"❌  %s not on default branch"`. -/
def notOnDefaultLine (rel : Str) : Str :=
  "❌  ".data ++ rel ++ " not on default branch".data

/-- Report line: `"❌  %s not clean"`. -/
def notCleanLine (rel : Str) : Str :=
  "❌  ".data ++ rel ++ " not clean".data

/-- Report line: `"❌  %s fast forwarding not possible"`. -/
def ffLine (rel : Str) : Str :=
  "❌  ".data ++ rel ++ " fast forwarding not possible".data

/-- Report line: `"✅  %s updated"`. -/
def updatedLine (rel : Str) : Str :=
  "✅  ".data ++ rel ++ " updated".data

/-- Report line: `"\t❌ failed pruning orphaned branches %v"`. -/
def failedPruneAllLine (msg : Str) : Str :=
  "\t❌ failed pruning orphaned branches ".data ++ msg

/-- Report line: `"\t❌ failed pruning orphaned branch %s %v"`. -/
def failedPruneLine (name msg : Str) : Str :=
  "\t❌ failed pruning orphaned branch ".data ++ name ++ " ".data ++ msg

/-- Report line: `"\t✅ pruned orphaned branch %s"`. -/
def prunedLine (name : Str) : Str :=
  "\t✅ pruned orphaned branch ".data ++ name

/-- The pruning loop of `processDir`: for each candidate call
`deleteBranch`; a `nil` result prints the pruned-success line (even when
the user declined), an error result prints the failed-pruning line. -/
def pruneLoop (st : RepoState) : List Str → List Str →
    Option (List Str × List Action × List Str)
  | [], resp => some ([], [], resp)
  | lrf :: rest, resp =>
    match deleteBranch st lrf resp with
    | none => none
    | some (res, cmds, resp') =>
      let line :=
        match res with
        | .ok _ => prunedLine lrf
        | .error e => failedPruneLine lrf e
      match pruneLoop st rest resp' with
      | none => none
      | some (ls, cs, r) => some (line :: ls, cmds ++ cs, r)

/-- Everything `processDir` can observe about one visited path:
the walk error passed in by `filepath.Walk`, the result of
`filepath.Rel(root, path)`, whether the entry is a directory, what is on
disk at `path/.git`, and the repository's git-visible state. -/
structure VisitEnv where
  walkErr : Option Str
  relResult : Except Str Str
  isDir : Bool
  gitEntry : FsEntry
  repo : RepoState

/-- What one `processDir` call did: walk signal returned, lines printed,
commands invoked, answers left unconsumed. -/
structure VisitResult where
  sig : WalkSig
  out : List Str
  acts : List Action
  resp : List Str
deriving DecidableEq

/-- `processDir` from src/main.go, with the prune flag and the prompt
answers passed explicitly.  `none` models a `log.Fatal` abort from the
confirmation prompt. -/
def processDir (env : VisitEnv) (prune : Bool) (resp : List Str) :
    Option VisitResult :=
  match env.walkErr with
  | some e => some ⟨.werr e, [], [], resp⟩
  | none =>
    match env.relResult with
    | .error e => some ⟨.skipDir, [failedLine [] e], [], resp⟩
    | .ok rel =>
      if env.isDir = false then some ⟨.cont, [], [], resp⟩
      else
        match pathExists (lstat env.gitEntry) with
        | .error e => some ⟨.skipDir, [failedLine rel e], [.lstatGit], resp⟩
        | .ok false => some ⟨.cont, [], [.lstatGit], resp⟩
        | .ok true =>
          match defaultBranch env.repo with
          | .error e =>
            some ⟨.skipDir, [failedLine rel e], [.lstatGit, .symShortQ], resp⟩
          | .ok branch =>
            match isOnDefault env.repo branch with
            | .error e =>
              some ⟨.skipDir, [failedLine rel e],
                [.lstatGit, .symShortQ, .symFullQ], resp⟩
            | .ok onDef =>
              if onDef = false then
                some ⟨.skipDir, [notOnDefaultLine rel],
                  [.lstatGit, .symShortQ, .symFullQ], resp⟩
              else
                match isClean env.repo with
                | .error e =>
                  some ⟨.skipDir, [failedLine rel e],
                    [.lstatGit, .symShortQ, .symFullQ, .statusQ], resp⟩
                | .ok false =>
                  some ⟨.skipDir, [notCleanLine rel],
                    [.lstatGit, .symShortQ, .symFullQ, .statusQ], resp⟩
                | .ok true =>
                  if pull env.repo branch = false then
                    some ⟨.skipDir, [ffLine rel],
                      [.lstatGit, .symShortQ, .symFullQ, .statusQ,
                        .pullQ branch], resp⟩
                  else
                    if prune = false then
                      some ⟨.skipDir, [updatedLine rel],
                        [.lstatGit, .symShortQ, .symFullQ, .statusQ,
                          .pullQ branch], resp⟩
                    else
                      match env.repo.refsOut with
                      | .error e =>
                        some ⟨.skipDir, [updatedLine rel, failedPruneAllLine e],
                          [.lstatGit, .symShortQ, .symFullQ, .statusQ,
                            .pullQ branch, .forEachRefQ], resp⟩
                      | .ok out =>
                        match pruneLoop env.repo (localRefs branch out) resp with
                        | none => none
                        | some (ls, cs, resp') =>
                          some ⟨.skipDir, updatedLine rel :: ls,
                            [.lstatGit, .symShortQ, .symFullQ, .statusQ,
                              .pullQ branch, .forEachRefQ] ++ cs, resp'⟩

/-! ## `main` -/

/-- The multi-line usage string printed on more than one positional
argument (src/main.go, raw string literal). -/
def usageText : Str :=
  ("\nUsage:\n    pullem             \n" ++
    "         recursively updates git repos starting from current working dir)\n" ++
    "    pullem some_path\n" ++
    "         recursively updates git repos starting from specified path").data

/-- Run the visitor across the sequence of paths `filepath.Walk`
presents, threading the answer stream; stop on a propagated walk error
(`Walk` returns it) and on a `log.Fatal` abort (`none`). -/
def runWalk (prune : Bool) : List VisitEnv → List Str →
    Option (Option Str × List Str × List Action)
  | [], _ => some (none, [], [])
  | v :: vs, resp =>
    match processDir v prune resp with
    | none => none
    | some vr =>
      match vr.sig with
      | .werr e => some (some e, vr.out, vr.acts)
      | _ =>
        match runWalk prune vs vr.resp with
        | none => none
        | some (w, ls, cs) => some (w, vr.out ++ ls, vr.acts ++ cs)

/-- Everything `main` can observe: positional arguments, the result of
`filepath.Abs(root)`, what the walk visits, the prune flag and the
answer stream. -/
structure MainEnv where
  args : List Str
  absResult : Except Str Str
  prune : Bool
  visits : List VisitEnv
  responses : List Str

/-- The whole run's observable outcome.  `log.Fatal` exits with code 1
and writes to standard error, so `stdout` keeps only `fmt` output. -/
structure RunResult where
  exitCode : Nat
  stdout : List Str
  acts : List Action
  walkInvoked : Bool
deriving DecidableEq

/-- `main` from src/main.go: usage on more than one positional argument
(exit 0, no walk), `log.Fatal` when `filepath.Abs` fails, otherwise walk
and `log.Fatal` on a walk error or an aborted confirmation read. -/
def mainRun (env : MainEnv) : RunResult :=
  if env.args.length > 1 then ⟨0, [usageText], [], false⟩
  else
    match env.absResult with
    | .error _ => ⟨1, [], [], false⟩
    | .ok _ =>
      match runWalk env.prune env.visits env.responses with
      | none => ⟨1, [], [], true⟩
      | some (some _, ls, cs) => ⟨1, ls, cs, true⟩
      | some (none, ls, cs) => ⟨0, ls, cs, true⟩

/-! ## Claim-side definition for C2 -/

/-- Follows the words of claim C2 (spec §4.5), for comparison with
`localRefsLine`: a listing line's branch (its first whitespace-separated
field with `refs/heads/` stripped) is offered iff its name is not
exactly `master`, not exactly the resolved default branch, and the line
does not split into exactly two whitespace-separated fields. -/
def claimOffered (branch line : Str) : Bool :=
  match fieldsWS line with
  | [] => false
  | p :: rest =>
    let name := p.drop headsRef.length
    decide (name ≠ "master".data) && decide (name ≠ branch) &&
      decide ((p :: rest).length ≠ 2)

/-! ## Concrete scenarios -/

/-- A clean repository on branch `main`, successful pull, one local
branch `foo` with no upstream. -/
def c1Repo : RepoState :=
  ⟨"main".data, .ok "main".data, .ok "refs/heads/main".data, .ok [],
    fun _ => true, .ok "refs/heads/foo".data, fun _ => true⟩

def c1Env : VisitEnv := ⟨none, .ok "r".data, true, .dir, c1Repo⟩

/-- What `processDir` does on `c1Env` with pruning on and the single
answer `no`: the branch is not deleted, yet the pruned-success line is
printed. -/
def c1Result : VisitResult :=
  ⟨.skipDir, [updatedLine "r".data, prunedLine "foo".data],
    [.lstatGit, .symShortQ, .symFullQ, .statusQ, .pullQ "main".data,
      .forEachRefQ], []⟩

/-- A clean repository whose `HEAD` is on branch `feature` while its
true default branch (`defaultRef`, never queried by the program) is
`main`; the pull succeeds. -/
def c3Repo : RepoState :=
  ⟨"main".data, .ok "feature".data, .ok "refs/heads/feature".data, .ok [],
    fun _ => true, .ok [], fun _ => true⟩

def c3Env : VisitEnv := ⟨none, .ok "r".data, true, .dir, c3Repo⟩

def c3Result : VisitResult :=
  ⟨.skipDir, [updatedLine "r".data],
    [.lstatGit, .symShortQ, .symFullQ, .statusQ, .pullQ "feature".data], []⟩

/-- A run with pruning enabled that reaches a confirmation prompt with
no answers left on standard input. -/
def c4Env : MainEnv := ⟨[], .ok "/r".data, true, [c1Env], []⟩

/-! ## Theorems -/

/-- C1: the claim says answering `no` to the deletion prompt leaves the
branch un-deleted *and prints no deletion-result line*.  The code keeps
the first half but violates the second: `deleteBranch` returns `nil`
when the user declines, so `processDir` prints the
`pruned orphaned branch` success line although `git branch -D` was never
invoked.  Evaluation at the failing input: pruning on, one candidate
branch `foo`, answer `no`. -/
theorem claim_C1_bug :
    processDir c1Env true ["no".data] = some c1Result ∧
    Action.deleteQ "foo".data ∉ c1Result.acts ∧
    prunedLine "foo".data ∈ c1Result.out := by
  decide

/-- C8: with more than one positional argument the program prints the
usage text to standard output, exits with status 0, and never starts the
walk. -/
theorem claim_C8 (env : MainEnv) (h : env.args.length > 1) :
    mainRun env = ⟨0, [usageText], [], false⟩ := by
  simp [mainRun, h]

/-- Witness for C8 at a concrete two-argument invocation. -/
theorem claim_C8_witness :
    mainRun ⟨["a".data, "b".data], .ok [], false, [], []⟩
      = ⟨0, [usageText], [], false⟩ :=
  claim_C8 ⟨["a".data, "b".data], .ok [], false, [], []⟩ (by decide)

/-- C9: classification via `pathExists ∘ lstat` returns `true` exactly
for a path-accessible `.git` entry (directory, regular file, or symlink
— dangling or not, since `Lstat` does not follow links), returns `false`
with no error for a missing entry, and never errors on a dangling
symlink. -/
theorem claim_C9 :
    (∀ e : FsEntry, pathExists (lstat e) = .ok true ↔ pathAccessible e = true) ∧
    pathExists (lstat .absent) = .ok false ∧
    (∀ b, pathExists (lstat (.symlink b)) = .ok true) := by
  refine ⟨fun e => ?_, rfl, fun b => rfl⟩
  cases e <;> simp [lstat, pathExists, pathAccessible]

/-- C10: a visited entry that is not a directory and carries no walk
error produces no output, no classification and no git invocation, and
the visitor returns the continue signal.  (`filepath.Rel` is assumed to
succeed; under the program's invocation the root is absolute and every
walked path lies beneath it, so it always does.) -/
theorem claim_C10 (env : VisitEnv) (rel : Str) (prune : Bool)
    (resp : List Str) (hw : env.walkErr = none)
    (hr : env.relResult = .ok rel) (hd : env.isDir = false) :
    processDir env prune resp = some ⟨.cont, [], [], resp⟩ := by
  simp [processDir, hw, hr, hd]

/-- Witness for C10 at a concrete plain-file visit. -/
theorem claim_C10_witness :
    processDir ⟨none, .ok "f".data, false, .absent, c1Repo⟩ false []
      = some ⟨.cont, [], [], []⟩ :=
  claim_C10 ⟨none, .ok "f".data, false, .absent, c1Repo⟩ "f".data false []
    rfl rfl rfl

/-- C2, counterexample: the claim offers a branch iff its name is not
exactly `master`, not the default branch, and the line does not have two
whitespace-separated fields.  The code instead excludes every line
*starting with* `refs/heads/master`: the branch `masterly` (empty
upstream, default branch `main`) is offered by the claim's rule but not
by the code. -/
theorem claim_C2_counterexample :
    claimOffered "main".data "refs/heads/masterly".data = true ∧
    localRefsLine "main".data "refs/heads/masterly".data = none ∧
    localRefs "main".data "refs/heads/masterly".data = [] := by
  decide

/-- C3, counterexample: a clean repository on branch `feature` whose
true default branch is `main`.  The claim says such a repository is
reported "not on default branch" and the pull is never invoked; the code
resolves the "default" branch as the current `HEAD` itself, so the check
passes and `git pull origin feature --ff-only` *is* invoked, with no
"not on default branch" line. -/
theorem claim_C3_counterexample :
    c3Repo.defaultRef = "main".data ∧
    "feature".data ≠ "main".data ∧
    processDir c3Env false [] = some c3Result ∧
    Action.pullQ "feature".data ∈ c3Result.acts ∧
    notOnDefaultLine "r".data ∉ c3Result.out := by
  decide

/-- C4, counterexample: a run whose root resolves fine and whose walk
never reports an error, but which still exits non-zero — the prune
confirmation prompt hits end-of-input and `askForConfirmation` calls
`log.Fatal`, aborting the whole run from inside per-repository
processing. -/
theorem claim_C4_counterexample :
    (mainRun c4Env).exitCode ≠ 0 ∧
    c4Env.absResult = .ok "/r".data ∧
    runWalk c4Env.prune c4Env.visits c4Env.responses = none := by
  refine ⟨by decide, rfl, by decide⟩

/-- C5: for a directory (no incoming walk error) containing a `.git`
entry, every code path of the visitor — success, every precondition
failure, and every processing error — returns the skip-subtree signal,
so traversal never descends into its children.  (On an incoming walk
error the visitor returns that error instead, aborting the entire walk,
which also never descends.) -/
theorem claim_C5 (rr : Except Str Str) (ge : FsEntry) (st : RepoState)
    (prune : Bool) (resp : List Str) (vr : VisitResult)
    (hge : lstat ge = .found)
    (h : processDir ⟨none, rr, true, ge, st⟩ prune resp = some vr) :
    vr.sig = .skipDir := by
  simp only [processDir, hge, pathExists] at h
  repeat' split at h
  all_goals try (injection h with h2; subst h2)
  all_goals first | rfl | simp_all

/-- Witness for C5 at a concrete repository visit. -/
theorem claim_C5_witness :
    (⟨.skipDir, [updatedLine "r".data],
      [.lstatGit, .symShortQ, .symFullQ, .statusQ, .pullQ "main".data],
      ([] : List Str)⟩ : VisitResult).sig = .skipDir :=
  claim_C5 (.ok "r".data) .dir c1Repo false [] _ rfl (by decide)

/-- C6: a repository whose status query returns non-empty output (and
which reaches the cleanliness check: `.git` present, `HEAD` on a branch)
is reported "not clean" and the pull command is never among the invoked
actions. -/
theorem claim_C6 (rel braw fraw s dRef : Str) (pOk dOk : Str → Bool)
    (rOut : Except Str Str) (ge : FsEntry) (prune : Bool) (resp : List Str)
    (hge : lstat ge = .found)
    (hcoh : trimSpace fraw = headsRef ++ trimSpace braw)
    (hdirty : ¬ trimSpace s = []) :
    processDir ⟨none, .ok rel, true, ge,
        ⟨dRef, .ok braw, .ok fraw, .ok s, pOk, rOut, dOk⟩⟩ prune resp
      = some ⟨.skipDir, [notCleanLine rel],
          [.lstatGit, .symShortQ, .symFullQ, .statusQ], resp⟩ := by
  simp [processDir, hge, pathExists, defaultBranch, isOnDefault, isClean,
    Except.map, hcoh, hdirty]

/-- Witness for C6 at a concrete dirty repository. -/
theorem claim_C6_witness :
    processDir ⟨none, .ok "r".data, true, .dir,
        ⟨"main".data, .ok "main".data, .ok "refs/heads/main".data,
          .ok " M x.txt".data, fun _ => true, .ok [], fun _ => true⟩⟩ false []
      = some ⟨.skipDir, [notCleanLine "r".data],
          [.lstatGit, .symShortQ, .symFullQ, .statusQ], []⟩ :=
  claim_C6 "r".data "main".data "refs/heads/main".data " M x.txt".data
    "main".data (fun _ => true) (fun _ => true) (.ok []) .dir false []
    rfl (by decide) (by decide)

/-- C7: a repository that reaches the pull and whose pull exits non-zero
produces exactly the one failure line "fast forwarding not possible",
and no prune action (`for-each-ref` listing or branch deletion) runs,
for either value of the prune flag. -/
theorem claim_C7 (rel braw fraw s dRef : Str) (pOk dOk : Str → Bool)
    (rOut : Except Str Str) (ge : FsEntry) (prune : Bool) (resp : List Str)
    (hge : lstat ge = .found)
    (hcoh : trimSpace fraw = headsRef ++ trimSpace braw)
    (hclean : trimSpace s = [])
    (hpull : pOk (trimSpace braw) = false) :
    processDir ⟨none, .ok rel, true, ge,
        ⟨dRef, .ok braw, .ok fraw, .ok s, pOk, rOut, dOk⟩⟩ prune resp
      = some ⟨.skipDir, [ffLine rel],
          [.lstatGit, .symShortQ, .symFullQ, .statusQ,
            .pullQ (trimSpace braw)], resp⟩ := by
  simp [processDir, hge, pathExists, defaultBranch, isOnDefault, isClean,
    pull, Except.map, hcoh, hclean, hpull]

/-- Witness for C7 at a concrete rejected pull with pruning enabled. -/
theorem claim_C7_witness :
    processDir ⟨none, .ok "r".data, true, .dir,
        ⟨"main".data, .ok "main".data, .ok "refs/heads/main".data, .ok [],
          fun _ => false, .ok "refs/heads/foo".data, fun _ => true⟩⟩ true []
      = some ⟨.skipDir, [ffLine "r".data],
          [.lstatGit, .symShortQ, .symFullQ, .statusQ,
            .pullQ "main".data], []⟩ :=
  claim_C7 "r".data "main".data "refs/heads/main".data [] "main".data
    (fun _ => false) (fun _ => true) (.ok "refs/heads/foo".data) .dir true []
    rfl (by decide) (by decide) rfl

/-- C3, amended: if `HEAD` is detached (symbolic-ref resolution fails),
the repository is reported "failed processing" — not "not on default
branch" — and the pull command is never invoked.  A repository on a
branch other than its true default branch is not detected: the code
compares `HEAD` against the branch it just resolved from the same
`HEAD`, the check passes, and the pull is invoked against the *current*
branch, whatever `defaultRef` is. -/
theorem claim_C3_amended :
    (∀ (rel e dRef : Str) (sf s rO : Except Str Str) (pOk dOk : Str → Bool)
        (ge : FsEntry) (prune : Bool) (resp : List Str),
      lstat ge = .found →
      processDir ⟨none, .ok rel, true, ge,
          ⟨dRef, .error e, sf, s, pOk, rO, dOk⟩⟩ prune resp
        = some ⟨.skipDir, [failedLine rel e], [.lstatGit, .symShortQ], resp⟩) ∧
    (∀ (rel braw fraw s dRef : Str) (pOk dOk : Str → Bool)
        (rO : Except Str Str) (ge : FsEntry) (resp : List Str),
      lstat ge = .found →
      trimSpace fraw = headsRef ++ trimSpace braw →
      trimSpace s = [] →
      pOk (trimSpace braw) = true →
      processDir ⟨none, .ok rel, true, ge,
          ⟨dRef, .ok braw, .ok fraw, .ok s, pOk, rO, dOk⟩⟩ false resp
        = some ⟨.skipDir, [updatedLine rel],
            [.lstatGit, .symShortQ, .symFullQ, .statusQ,
              .pullQ (trimSpace braw)], resp⟩) := by
  constructor
  · intro rel e dRef sf s rO pOk dOk ge prune resp hge
    simp [processDir, hge, pathExists, defaultBranch, Except.map]
  · intro rel braw fraw s dRef pOk dOk rO ge resp hge hcoh hclean hpull
    simp [processDir, hge, pathExists, defaultBranch, isOnDefault, isClean,
      pull, Except.map, hcoh, hclean, hpull]

/-- Witness for the amended C3: detached `HEAD` reports "failed
processing" with no pull, and a clean repository on branch `feature`
with true default `main` gets `git pull origin feature` invoked. -/
theorem claim_C3_witness :
    processDir ⟨none, .ok "r".data, true, .dir,
        ⟨"main".data, .error "exit status 1".data, .error "exit status 1".data,
          .ok [], fun _ => true, .ok [], fun _ => true⟩⟩ false []
      = some ⟨.skipDir, [failedLine "r".data "exit status 1".data],
          [.lstatGit, .symShortQ], []⟩ ∧
    processDir c3Env false [] = some c3Result :=
  ⟨claim_C3_amended.1 "r".data "exit status 1".data "main".data
      (.error "exit status 1".data) (.ok []) (.ok []) (fun _ => true)
      (fun _ => true) .dir false [] rfl,
    claim_C3_amended.2 "r".data "feature".data "refs/heads/feature".data []
      "main".data (fun _ => true) (fun _ => true) (.ok []) .dir []
      rfl (by decide) (by decide) rfl⟩

/-- C4, amended: the run exits non-zero exactly when (given at most one
positional argument) resolving the root to an absolute path fails, the
tree walk propagates an error, or reading a confirmation answer from
standard input fails during pruning (`log.Fatal` in
`askForConfirmation`).  Per-repository precondition failures, processing
errors and pull failures never abort the run. -/
theorem claim_C4_amended (env : MainEnv) :
    (mainRun env).exitCode ≠ 0 ↔
      env.args.length ≤ 1 ∧
        ((∃ e, env.absResult = .error e) ∨
          runWalk env.prune env.visits env.responses = none ∨
          ∃ e ls cs,
            runWalk env.prune env.visits env.responses = some (some e, ls, cs)) := by
  obtain ⟨args, abs, prune, visits, responses⟩ := env
  by_cases hlen : args.length > 1
  · have : ¬ args.length ≤ 1 := by omega
    simp [mainRun, hlen, this]
  · have hle : args.length ≤ 1 := by omega
    cases abs with
    | error e => simp [mainRun, hlen, hle]
    | ok r =>
      rcases hw : runWalk prune visits responses with _ | ⟨w, ls, cs⟩
      · simp [mainRun, hlen, hle, hw]
      · cases w with
        | none => simp [mainRun, hlen, hle, hw]
        | some e => simp [mainRun, hlen, hle, hw]

/-- Witness for the amended C4: a failing root resolution exits
non-zero. -/
theorem claim_C4_witness :
    (mainRun ⟨[], .error "bad".data, false, [], []⟩).exitCode ≠ 0 :=
  (claim_C4_amended ⟨[], .error "bad".data, false, [], []⟩).mpr
    ⟨by decide, Or.inl ⟨"bad".data, rfl⟩⟩

/-! ## String lemmas for the amended C2 -/

/-- `dropWhile` leaves a list alone when no element satisfies the
test. -/
theorem dropWhile_all_false :
    ∀ s : Str, (∀ c ∈ s, isSpaceChar c = false) →
      s.dropWhile isSpaceChar = s
  | [], _ => rfl
  | c :: cs, h => by
    have hc : isSpaceChar c = false := h c (by simp)
    have ih := dropWhile_all_false cs (fun x hx => h x (by simp [hx]))
    simp [List.dropWhile_cons, hc, ih]

/-- `dropWhile` leaves `s ++ t` alone when `s` is non-empty and free of
whitespace. -/
theorem dropWhile_append_all_false (s t : Str) (hs : s ≠ [])
    (h : ∀ c ∈ s, isSpaceChar c = false) :
    (s ++ t).dropWhile isSpaceChar = s ++ t := by
  cases s with
  | nil => exact absurd rfl hs
  | cons c cs =>
    have hc : isSpaceChar c = false := h c (by simp)
    simp [List.dropWhile_cons, hc]

/-- `trimSpace` is the identity when neither end is trimmed. -/
theorem trimSpace_of_ends (s : Str)
    (h1 : s.dropWhile isSpaceChar = s)
    (h2 : s.reverse.dropWhile isSpaceChar = s.reverse) :
    trimSpace s = s := by
  simp [trimSpace, h1, h2]

/-- Cancelling a common first part in a `strStarts` test. -/
theorem strStarts_append_both (a b c : Str) :
    strStarts (a ++ b) (a ++ c) = strStarts b c := by
  induction a with
  | nil => rfl
  | cons x xs ih => simp [strStarts, ih]

/-- Any list starts with itself. -/
theorem strStarts_self_append (a b : Str) : strStarts a (a ++ b) = true := by
  induction a with
  | nil => rfl
  | cons x xs ih => simp [strStarts, ih]

/-- A space-free pattern cannot reach past a space separator. -/
theorem strStarts_skip_space :
    ∀ p n u : Str, (∀ c ∈ p, isSpaceChar c = false) →
      strStarts p (n ++ ' ' :: u) = strStarts p n
  | [], _, _, _ => rfl
  | c :: cs, [], u, hp => by
    have hc : isSpaceChar c = false := hp c (by simp)
    have hcs : ¬ c = ' ' := by
      intro h
      subst h
      exact absurd hc (by decide)
    simp [strStarts, hcs]
  | c :: cs, d :: ds, u, hp => by
    simp only [List.cons_append, strStarts]
    split
    · exact strStarts_skip_space cs ds u (fun x hx => hp x (by simp [hx]))
    · rfl

/-- `Split` on a separator absent from the list. -/
theorem splitOnChar_no_sep :
    ∀ (sep : Char) (s : Str), (∀ c ∈ s, ¬ c = sep) →
      splitOnChar sep s = [s]
  | _, [], _ => rfl
  | sep, c :: cs, h => by
    have hc : ¬ c = sep := h c (by simp)
    have ih := splitOnChar_no_sep sep cs (fun x hx => h x (by simp [hx]))
    simp [splitOnChar, hc, ih]

/-- `Split` around the first separator occurrence. -/
theorem splitOnChar_append_sep :
    ∀ (sep : Char) (a b : Str), (∀ c ∈ a, ¬ c = sep) →
      splitOnChar sep (a ++ sep :: b) = a :: splitOnChar sep b
  | sep, [], b, _ => by simp [splitOnChar]
  | sep, x :: xs, b, h => by
    have hx : ¬ x = sep := h x (by simp)
    have ih := splitOnChar_append_sep sep xs b (fun c hc => h c (by simp [hc]))
    simp [splitOnChar, hx, ih]

/-- Whitespace-free lists contain no space character. -/
theorem no_space_of_all_false (s : Str)
    (h : ∀ c ∈ s, isSpaceChar c = false) : ∀ c ∈ s, ¬ c = ' ' := by
  intro c hc e
  subst e
  exact absurd (h ' ' hc) (by decide)

/-- C2, amended: for a well-formed listing line
`refs/heads/<name>[ <upstream>]` with whitespace-free name, upstream and
default branch, the branch is offered iff the upstream field is empty
and the name does not *start with* `master` and does not *start with*
the resolved default branch (the code tests the whole line with
`HasPrefix`, so the exclusions are prefix tests on the name, not
equality tests). -/
theorem claim_C2_amended (branch name upstream : Str)
    (hb : ∀ c ∈ branch, isSpaceChar c = false)
    (hn : ∀ c ∈ name, isSpaceChar c = false)
    (hu : ∀ c ∈ upstream, isSpaceChar c = false) :
    localRefsLine branch
        (headsRef ++ name ++ (if upstream = [] then [] else ' ' :: upstream))
      = if upstream = [] ∧ strStarts "master".data name = false ∧
            strStarts branch name = false
          then some name else none := by
  have hhr : ∀ c ∈ headsRef, isSpaceChar c = false := by decide
  have hhrne : headsRef ≠ ([] : Str) := by decide
  have hmr : masterRef = headsRef ++ "master".data := rfl
  have hnm : ∀ c ∈ headsRef ++ name, isSpaceChar c = false := by
    intro c hc
    rcases List.mem_append.1 hc with h | h
    · exact hhr c h
    · exact hn c h
  have hnmne : ¬ headsRef ++ name = [] := by
    intro h
    exact hhrne (List.append_eq_nil.1 h).1
  by_cases hup : upstream = []
  · subst hup
    have harg :
        (headsRef ++ name ++ (if ([] : Str) = [] then [] else ' ' :: ([] : Str)))
          = headsRef ++ name := by
      simp
    have htrim : trimSpace (headsRef ++ name) = headsRef ++ name :=
      trimSpace_of_ends _ (dropWhile_all_false _ hnm)
        (dropWhile_all_false _ (fun c hc => hnm c (List.mem_reverse.1 hc)))
    have hsplit : splitOnChar ' ' (headsRef ++ name) = [headsRef ++ name] :=
      splitOnChar_no_sep ' ' _ (no_space_of_all_false _ hnm)
    have hm : strStarts masterRef (headsRef ++ name)
        = strStarts "master".data name := by
      rw [hmr, strStarts_append_both]
    have hbx : strStarts (headsRef ++ branch) (headsRef ++ name)
        = strStarts branch name := strStarts_append_both _ _ _
    have hdrop : (headsRef ++ name).drop headsRef.length = name :=
      List.drop_left headsRef name
    rw [harg]
    simp only [localRefsLine]
    rw [htrim, if_neg hnmne, hm, hbx, hsplit]
    cases hA : strStarts "master".data name with
    | true => simp [hA]
    | false =>
      cases hB : strStarts branch name with
      | true => simp [hB]
      | false =>
        simp [hA, hB, strStarts_self_append, hdrop]
  · simp only [if_neg hup]
    obtain ⟨u, us, rfl⟩ : ∃ u us, upstream = u :: us := by
      cases upstream with
      | nil => exact absurd rfl hup
      | cons u us => exact ⟨u, us, rfl⟩
    have hupr : (u :: us).reverse ≠ ([] : Str) := by
      simp
    have htriml :
        (headsRef ++ name ++ ' ' :: (u :: us)).dropWhile isSpaceChar
          = headsRef ++ name ++ ' ' :: (u :: us) :=
      dropWhile_append_all_false (headsRef ++ name) _ hnmne hnm
    have htrimr :
        (headsRef ++ name ++ ' ' :: (u :: us)).reverse.dropWhile isSpaceChar
          = (headsRef ++ name ++ ' ' :: (u :: us)).reverse := by
      rw [List.reverse_append]
      have hrev : (' ' :: (u :: us)).reverse = (u :: us).reverse ++ [' '] := by
        simp
      rw [hrev, List.append_assoc]
      exact dropWhile_append_all_false ((u :: us).reverse) _ hupr
        (fun c hc => hu c (List.mem_reverse.1 hc))
    have htrim : trimSpace (headsRef ++ name ++ ' ' :: (u :: us))
        = headsRef ++ name ++ ' ' :: (u :: us) :=
      trimSpace_of_ends _ htriml htrimr
    have hne : ¬ headsRef ++ name ++ ' ' :: (u :: us) = [] := by
      intro h
      exact hnmne (List.append_eq_nil.1 h).1
    have hm : strStarts masterRef (headsRef ++ name ++ ' ' :: (u :: us))
        = strStarts "master".data name := by
      rw [hmr, List.append_assoc, strStarts_append_both,
        strStarts_skip_space _ _ _ (by decide)]
    have hbx : strStarts (headsRef ++ branch)
        (headsRef ++ name ++ ' ' :: (u :: us)) = strStarts branch name := by
      rw [List.append_assoc, strStarts_append_both,
        strStarts_skip_space _ _ _ hb]
    have hsplit : splitOnChar ' ' (headsRef ++ name ++ ' ' :: (u :: us))
        = [headsRef ++ name, u :: us] := by
      rw [splitOnChar_append_sep ' ' _ _ (no_space_of_all_false _ hnm),
        splitOnChar_no_sep ' ' _ (no_space_of_all_false _ hu)]
    simp only [localRefsLine]
    rw [htrim, if_neg hne, hm, hbx, hsplit]
    cases hA : strStarts "master".data name with
    | true => simp [hA]
    | false =>
      cases hB : strStarts branch name with
      | true => simp [hB]
      | false => simp [hA, hB]

/-- Witness for the amended C2: branch `foo` with empty upstream and
default branch `main` is offered. -/
theorem claim_C2_witness :
    localRefsLine "main".data (headsRef ++ "foo".data ++ []) =
      some "foo".data := by
  have h := claim_C2_amended "main".data "foo".data []
    (by decide) (by decide) (by decide)
  have hA : strStarts "master".data "foo".data = false := by decide
  have hB : strStarts "main".data "foo".data = false := by decide
  simpa [hA, hB] using h

end Pullem
